import Mathlib

/-!
Verification of the Bambu Lab MQTT integration
(`src/spoolman/integrations/bambu_mqtt.py`).

The module is shallowly embedded:

* JSON values (`json.loads` results) are `JVal`; Python's `int`/`float`
  split is kept (`jint`/`jnum`).  Numeric values are modelled as exact
  rationals; binary floating-point rounding is outside the model.
* The mutable `_last_remaining` dict is a `Tracker` (association list),
  the immutable `ams_mappings` dict a `Mappings`.
* The external store (`spool_db.update`) is an oracle `Store` deciding,
  per attempted update, whether the call succeeds or raises; dispatch
  attempts are recorded as `Disp` values.
* The supervisor loop `run` is a function over a finite trace of
  connection-attempt events (`Att`); the `running` flag is modelled by
  the index of the first flag check that reads `False` (`Env.stopAfter`),
  each check consuming one index in program order.
-/

set_option allowUnsafeReducibility true

attribute [local semireducible] Rat.mul Rat.add Rat.sub Rat.inv Rat.ofScientific

set_option maxRecDepth 4000

namespace Bambu

/-- Parsed JSON values, as produced by Python's `json.loads`: `jint` for
integer literals, `jnum` for non-integer numeric literals, `jobj` an
association list with distinct keys (first-match lookup). -/
inductive JVal where
  | jnull
  | jbool (b : Bool)
  | jint (n : Int)
  | jnum (q : ℚ)
  | jstr (s : String)
  | jarr (xs : List JVal)
  | jobj (fields : List (String × JVal))

/-- First-match association-list lookup on a JSON object's fields. -/
def lookupF : List (String × JVal) → String → Option JVal
  | [], _ => none
  | (k, v) :: rest, key => if k = key then some v else lookupF rest key

/-- Python `str()` on the values relevant here.  `str` of an `int` is its
decimal form, of a string the string itself, of `None` the text `None`,
of a bool `True`/`False`.  The representations of floats, lists and
dicts are abstracted to fixed coarse forms: no claim involves a slot
mapping keyed by such a representation. -/
def pyStr : JVal → String
  | .jnull => "None"
  | .jbool true => "True"
  | .jbool false => "False"
  | .jint n => toString n
  | .jnum q => toString q
  | .jstr s => s
  | .jarr _ => "<list>"
  | .jobj _ => "<dict>"

/-- All characters are decimal digits (used by the `float()` model). -/
def isDigits (cs : List Char) : Bool := !cs.isEmpty && cs.all (·.isDigit)

/-- Numeric value of a decimal digit string. -/
def natOfDigits (cs : List Char) : Nat :=
  cs.foldl (fun a c => a * 10 + (c.toNat - 48)) 0

/-- Strip leading and trailing whitespace, as Python `float(str)` does
before parsing. -/
def trimChars (cs : List Char) : List Char :=
  ((cs.dropWhile (·.isWhitespace)).reverse.dropWhile (·.isWhitespace)).reverse

/-- Model of Python `float(str)` on plain decimal forms: optional
surrounding whitespace, optional sign, `digits`, `digits.digits`,
`digits.` or `.digits`.  Exponent forms, `inf`/`nan` and underscore
separators are accepted by Python but produce values outside this exact
rational model; they are not modelled and no claim involves them. -/
def parseDec (s : String) : Option ℚ :=
  let cs := trimChars s.toList
  let (sgn, body) : ℚ × List Char :=
    match cs with
    | '-' :: r => (-1, r)
    | '+' :: r => (1, r)
    | r => (1, r)
  let intPart := body.takeWhile (· ≠ '.')
  let rest := body.dropWhile (· ≠ '.')
  match rest with
  | [] =>
    if isDigits intPart then some (sgn * natOfDigits intPart) else none
  | _ :: fracPart =>
    if (intPart.all (·.isDigit)) && (fracPart.all (·.isDigit))
        && (!intPart.isEmpty || !fracPart.isEmpty) then
      some (sgn * (natOfDigits intPart +
        (natOfDigits fracPart : ℚ) / (10 : ℚ) ^ fracPart.length))
    else none

/-- Model of Python `float(x)`: succeeds on ints, floats, bools
(`bool` is an `int` subclass) and numeric strings; `None`, lists and
dicts raise `TypeError` (`none`). -/
def pyFloat : JVal → Option ℚ
  | .jint n => some n
  | .jnum q => some q
  | .jbool b => some (if b then 1 else 0)
  | .jstr s => parseDec s
  | _ => none

/-- Whether a JSON value equals (Python `==`) a given string. -/
def isStrEq (needle : String) : JVal → Bool
  | .jstr s => s = needle
  | _ => false

/-- A non-empty needle occurs as a substring. -/
def substrOccurs (needle s : String) : Bool := (s.splitOn needle).length ≥ 2

/-- Python `needle in container` for a string needle: key membership for
dicts, element equality for lists, substring test for strings; other
operands raise `TypeError` (`none`). -/
def pyInStr (needle : String) : JVal → Option Bool
  | .jobj fs => some (fs.any (fun p => p.1 = needle))
  | .jarr xs => some (xs.any (isStrEq needle))
  | .jstr s => some (substrOccurs needle s)
  | _ => none

/-- Python `v.get(k, dflt)`: only dicts have `.get`; anything else
(including `None`) raises `AttributeError` (`none`). -/
def pyGetD (v : JVal) (k : String) (dflt : JVal) : Option JVal :=
  match v with
  | .jobj fs => some ((lookupF fs k).getD dflt)
  | _ => none

/-- Python `v[k]` for a string key: dict lookup; a missing key
(`KeyError`) or a non-dict operand (`TypeError`) raises (`none`). -/
def pySub (v : JVal) (k : String) : Option JVal :=
  match v with
  | .jobj fs => lookupF fs k
  | _ => none

/-- Python iteration `for x in v`: lists yield elements, dicts their
keys, strings their characters; other values raise `TypeError`. -/
def pyIter : JVal → Option (List JVal)
  | .jarr xs => some xs
  | .jobj fs => some (fs.map (fun p => .jstr p.1))
  | .jstr s => some (s.toList.map (fun c => .jstr (String.mk [c])))
  | _ => none

/-- Python truthiness, used by `if ams_data:` / `if not ams_data:`. -/
def truthy : JVal → Bool
  | .jnull => false
  | .jbool b => b
  | .jint n => n ≠ 0
  | .jnum q => q ≠ 0
  | .jstr s => s ≠ ""
  | .jarr xs => !xs.isEmpty
  | .jobj fs => !fs.isEmpty

/-- The client's `_last_remaining` dict: slot id to last accepted
remaining percentage. -/
abbrev Tracker := List (String × ℚ)

/-- `self._last_remaining.get(tray_id)`. -/
def tLookup : Tracker → String → Option ℚ
  | [], _ => none
  | (k, v) :: rest, key => if k = key then some v else tLookup rest key

/-- `self._last_remaining[tray_id] = value`: overwrite in place or append. -/
def tInsert : Tracker → String → ℚ → Tracker
  | [], key, v => [(key, v)]
  | (k, w) :: rest, key, v =>
    if k = key then (k, v) :: rest else (k, w) :: tInsert rest key v

/-- The immutable `ams_mappings` dict: slot id to Spoolman spool id. -/
abbrev Mappings := List (String × Int)

/-- `self.ams_mappings[tray_id]` / the `tray_id not in self.ams_mappings`
test (`isSome`). -/
def mLookup : Mappings → String → Option Int
  | [], _ => none
  | (k, v) :: rest, key => if k = key then some v else mLookup rest key

/-- `str(tray.get("id", ""))` (line 127): the slot identifier used for
mapping lookup, change detection and baseline storage. -/
def trayIdOf (fields : List (String × JVal)) : String :=
  pyStr ((lookupF fields "id").getD (.jstr ""))

/-- `tray.get(k)` followed by the code's `is None` test: Python's
`dict.get` returns `None` both for an absent key and for a JSON-null
value, and the code only ever tests `is None`, so both collapse to
`none`. -/
def fieldOrNone (fields : List (String × JVal)) (k : String) : Option JVal :=
  match lookupF fields k with
  | some .jnull => none
  | r => r

/-- Line 150: `last_remain is not None and abs(remain_percent - last_remain) < 0.5`. -/
def suppressedB (st : Tracker) (tid : String) (p : ℚ) : Bool :=
  match tLookup st tid with
  | some last => decide (|p - last| < 1 / 2)
  | none => false

/-- Outcome oracle for `spool_db.update`: for a given spool id and
weight, whether the call succeeds (`true`) or raises (`false`). -/
abbrev Store := Int → ℚ → Bool

/-- One attempted `spool_db.update` call (lines 183–187): the slot it
came from, the spool id, the weight sent, and whether the store call
succeeded. -/
structure Disp where
  slot : String
  spool : Int
  weight : ℚ
  ok : Bool
deriving DecidableEq

/-- The store-independent part of a dispatch attempt. -/
def dproj (d : Disp) : String × Int × ℚ := (d.slot, d.spool, d.weight)

/-- Logging calls made by the pipeline, by source line. -/
inductive LogEv where
  | warnBadRemain (tray : String) (v : JVal)
  | warnNoWeight (tray : String)
  | warnBadWeight (tray : String) (v : JVal)
  | infoSlot (tray : String) (spool : Int) (pct : ℚ) (w : ℚ)
  | infoUpdated (spool : Int) (w : ℚ)
  | excUpdateFailed (spool : Int)
  | warnDecode
  | excProcessing

/-- Body of the per-tray loop of `_process_ams_data` (lines 122–190):
given the mapping, the store oracle and the current tracker state,
process one element of an AMS unit's `tray` list, returning the new
tracker state, the dispatch attempts and the log records. -/
def processTray (maps : Mappings) (store : Store) (st : Tracker) (tray : JVal) :
    Tracker × List Disp × List LogEv :=
  match tray with
  | .jobj fields =>
    let tid := trayIdOf fields
    match mLookup maps tid with
    | none => (st, [], [])
    | some spool =>
      match fieldOrNone fields "remain" with
      | none => (st, [], [])
      | some rv =>
        match pyFloat rv with
        | none => (st, [], [.warnBadRemain tid rv])
        | some p =>
          if suppressedB st tid p then (st, [], [])
          else
            let st' := tInsert st tid p
            match fieldOrNone fields "tray_weight" with
            | none => (st', [], [.warnNoWeight tid])
            | some wv =>
              match pyFloat wv with
              | none => (st', [], [.warnBadWeight tid wv])
              | some w =>
                let rw := p / 100 * w
                if store spool rw then
                  (st', [⟨tid, spool, rw, true⟩],
                    [.infoSlot tid spool p rw, .infoUpdated spool rw])
                else
                  (st', [⟨tid, spool, rw, false⟩],
                    [.infoSlot tid spool p rw, .excUpdateFailed spool])
  | _ => (st, [], [])

/-- `for tray in ams_unit["tray"]: ...` over an already-extracted list. -/
def processTrays (maps : Mappings) (store : Store) (st : Tracker) :
    List JVal → Tracker × List Disp × List LogEv
  | [] => (st, [], [])
  | t :: ts =>
    let r1 := processTray maps store st t
    let r2 := processTrays maps store r1.1 ts
    (r2.1, r1.2.1 ++ r2.2.1, r1.2.2 ++ r2.2.2)

/-- How lines 118–122 treat one AMS unit: skip it (`"tray" not in
ams_unit`), raise (`TypeError`/`KeyError` from the membership test, the
subscript or the iteration), or yield its tray list. -/
inductive UnitRes where
  | skip
  | abort
  | trays (ts : List JVal)

/-- Classify one AMS unit per lines 118–122. -/
def unitRes (u : JVal) : UnitRes :=
  match pyInStr "tray" u with
  | none => .abort
  | some false => .skip
  | some true =>
    match pySub u "tray" with
    | none => .abort
    | some tv =>
      match pyIter tv with
      | none => .abort
      | some ts => .trays ts

/-- One iteration of `for ams_unit in ams_data` (lines 117–190).  The
final `Bool` records whether an exception escaped (it is caught by
`_process_message`'s `except Exception`). -/
def processUnit (maps : Mappings) (store : Store) (st : Tracker) (u : JVal) :
    Tracker × List Disp × List LogEv × Bool :=
  match unitRes u with
  | .skip => (st, [], [], false)
  | .abort => (st, [], [], true)
  | .trays ts =>
    let r := processTrays maps store st ts
    (r.1, r.2.1, r.2.2, false)

/-- `for ams_unit in ams_data: ...`: an exception from one unit aborts
the remaining units but keeps the tracker mutations made so far. -/
def processUnits (maps : Mappings) (store : Store) (st : Tracker) :
    List JVal → Tracker × List Disp × List LogEv × Bool
  | [] => (st, [], [], false)
  | u :: us =>
    let r1 := processUnit maps store st u
    if r1.2.2.2 then r1
    else
      let r2 := processUnits maps store r1.1 us
      (r2.1, r1.2.1 ++ r2.2.1, r1.2.2.1 ++ r2.2.2.1, r2.2.2.2)

/-- `_process_ams_data` (lines 105–190): the guard `if not ams_data:
return`, then iteration over the units; a non-iterable `ams_data`
raises. -/
def processAmsData (maps : Mappings) (store : Store) (st : Tracker) (amsData : JVal) :
    Tracker × List Disp × List LogEv × Bool :=
  if truthy amsData then
    match pyIter amsData with
    | none => (st, [], [], true)
    | some us => processUnits maps store st us
  else (st, [], [], false)

/-- A raw MQTT payload: either its bytes fail `json.loads`
(`JSONDecodeError`) or they parse to a JSON value. -/
inductive Raw where
  | malformed
  | wellFormed (v : JVal)

/-- `_process_message` (lines 192–218): decode, check for `print`,
navigate to `print.ams.ams`, and run `_process_ams_data`; a
`JSONDecodeError` is logged at warning level, any other exception is
logged via `logger.exception`, and in all cases the method returns
normally. -/
def processMessage (maps : Mappings) (store : Store) (st : Tracker) :
    Raw → Tracker × List Disp × List LogEv
  | .malformed => (st, [], [.warnDecode])
  | .wellFormed v =>
    match pyInStr "print" v with
    | none => (st, [], [.excProcessing])
    | some false => (st, [], [])
    | some true =>
      match pySub v "print" with
      | none => (st, [], [.excProcessing])
      | some printData =>
        match pyGetD printData "ams" (.jobj []) with
        | none => (st, [], [.excProcessing])
        | some amsField =>
          match pyGetD amsField "ams" (.jarr []) with
          | none => (st, [], [.excProcessing])
          | some amsData =>
            if truthy amsData then
              let r := processAmsData maps store st amsData
              (r.1, r.2.1, if r.2.2.2 then r.2.2.1 ++ [.excProcessing] else r.2.2.1)
            else (st, [], [])

/-- The tray records a well-formed message's processing actually
iterates over, in document order, taking into account that an exception
in one unit aborts the remaining units.  Used to count how often a slot
identifier occurs in one message. -/
def traysOfUnits : List JVal → List JVal
  | [] => []
  | u :: us =>
    match unitRes u with
    | .skip => traysOfUnits us
    | .abort => []
    | .trays ts => ts ++ traysOfUnits us

/-- The tray records reached while processing a raw message. -/
def traysOf : Raw → List JVal
  | .malformed => []
  | .wellFormed v =>
    match pyInStr "print" v with
    | some true =>
      match pySub v "print" with
      | some printData =>
        match pyGetD printData "ams" (.jobj []) with
        | some amsField =>
          match pyGetD amsField "ams" (.jarr []) with
          | some amsData =>
            if truthy amsData then
              match pyIter amsData with
              | some us => traysOfUnits us
              | none => []
            else []
          | none => []
        | none => []
      | none => []
    | _ => []

/-- Whether a tray record is a dict whose computed slot identifier is `s`. -/
def isRecFor (s : String) (t : JVal) : Bool :=
  match t with
  | .jobj fields => trayIdOf fields = s
  | _ => false

/-- Number of tray records for slot `s` among a list of trays. -/
def countOcc (s : String) (ts : List JVal) : Nat :=
  (ts.filter (isRecFor s)).length

/-- Every key of the tracker is a key of the slot mapping. -/
def keysMapped (maps : Mappings) (st : Tracker) : Prop :=
  ∀ s q, tLookup st s = some q → (mLookup maps s).isSome

/-- A processing step from tracker `st` to `st'` emitting dispatches
`ds` touches only mapped slots: unmapped baselines are untouched, every
dispatch is for a mapped slot, and the tracker-keys invariant is
preserved. -/
def Pres (maps : Mappings) (st st' : Tracker) (ds : List Disp) : Prop :=
  (∀ s, mLookup maps s = none → tLookup st' s = tLookup st s)
  ∧ (∀ d ∈ ds, (mLookup maps d.slot).isSome)
  ∧ (keysMapped maps st → keysMapped maps st')

/-- One connection attempt of the reconnection loop (lines 247–296), as
seen from the environment:
* `connFail` — entering the `aiomqtt.Client` context raised
  (`MqttError` or any other exception; the two handlers at lines
  276–296 have identical bodies);
* `subFail` — the connection was established (so line 261 reset the
  delay), then `client.subscribe` raised;
* `sess msgs endsErr` — connected and subscribed; `msgs` arrived on the
  stream, after which the stream raised (`true`) or ended (`false`). -/
inductive Att where
  | connFail
  | subFail
  | sess (msgs : List Raw) (endsErr : Bool)

/-- Environment of one `run` invocation.  `stopAfter` models the
`running` flag: the flag reads (line 247 loop top, line 269 in the
message loop, lines 277/288 in the handlers) are numbered in program
order, and read `True` exactly for indices below `stopAfter`
(`none`: `stop()` is never called).  Monotonicity of the flag — once
`stop()` sets it false it stays false — is built into this model. -/
structure Env where
  maps : Mappings
  stopAfter : Option Nat

/-- Value read from `self.running` at flag check number `i`. -/
def checkRun (env : Env) (i : Nat) : Bool :=
  match env.stopAfter with
  | none => true
  | some s => decide (i < s)

/-- Result of one `async for message in client.messages` session:
the next unused flag-check index, the tracker, the processed messages
(tagged with the index of the check that guarded each), the dispatch
attempts, the logs, and whether the loop exited via the `break` at
line 270. -/
structure SessOut where
  next : Nat
  tracker : Tracker
  procs : List (Nat × Raw)
  disps : List Disp
  logs : List LogEv
  broke : Bool

/-- Lines 268–274: per received message, check the running flag, then
process the message with a fresh session. -/
def runSess (env : Env) (store : Store) :
    List Raw → Nat → Tracker → SessOut
  | [], k, st => ⟨k, st, [], [], [], false⟩
  | m :: ms, k, st =>
    if checkRun env k then
      let r := processMessage env.maps store st m
      let o := runSess env store ms (k + 1) r.1
      ⟨o.next, o.tracker, (k, m) :: o.procs, r.2.1 ++ o.disps, r.2.2 ++ o.logs, o.broke⟩
    else ⟨k + 1, st, [], [], [], true⟩

/-- Observable outcome of `run`: the final tracker, the sleeps
performed (flag-check index of the guarding handler check, seconds),
the loop-top check index before each connection attempt, the processed
messages, the dispatch attempts and the logs. -/
structure RunOut where
  tracker : Tracker
  waits : List (Nat × Nat)
  conns : List Nat
  procs : List (Nat × Raw)
  disps : List Disp
  logs : List LogEv

/-- The reconnection loop of `run` (lines 243–298) over a finite trace
of attempt outcomes; an exhausted trace ends the observation.  The
delay starts at 5 (line 244), is reset to 5 on successful connection
(line 261, before the subscribe at line 264), doubles capped at 300
after each sleep (lines 285/296). -/
def runLoop (env : Env) (store : Store) :
    List Att → Nat → Nat → Tracker → RunOut
  | atts, k, d, st =>
    if checkRun env k then
      match atts with
      | [] => ⟨st, [], [], [], [], []⟩
      | .connFail :: rest =>
        if checkRun env (k + 1) then
          let o := runLoop env store rest (k + 2) (min (d * 2) 300) st
          ⟨o.tracker, (k + 1, d) :: o.waits, k :: o.conns, o.procs, o.disps, o.logs⟩
        else ⟨st, [], [k], [], [], []⟩
      | .subFail :: rest =>
        if checkRun env (k + 1) then
          let o := runLoop env store rest (k + 2) (min (5 * 2) 300) st
          ⟨o.tracker, (k + 1, 5) :: o.waits, k :: o.conns, o.procs, o.disps, o.logs⟩
        else ⟨st, [], [k], [], [], []⟩
      | .sess msgs endsErr :: rest =>
        let s := runSess env store msgs (k + 1) st
        if s.broke then
          let o := runLoop env store rest s.next 5 s.tracker
          ⟨o.tracker, o.waits, k :: o.conns, s.procs ++ o.procs,
            s.disps ++ o.disps, s.logs ++ o.logs⟩
        else if endsErr then
          if checkRun env s.next then
            let o := runLoop env store rest (s.next + 1) (min (5 * 2) 300) s.tracker
            ⟨o.tracker, (s.next, 5) :: o.waits, k :: o.conns, s.procs ++ o.procs,
              s.disps ++ o.disps, s.logs ++ o.logs⟩
          else ⟨s.tracker, [], [k], s.procs, s.disps, s.logs⟩
        else
          let o := runLoop env store rest s.next 5 s.tracker
          ⟨o.tracker, o.waits, k :: o.conns, s.procs ++ o.procs,
            s.disps ++ o.disps, s.logs ++ o.logs⟩
    else ⟨st, [], [], [], [], []⟩

/-- `run(db_session_factory)`: flag set, delay 5, empty tracker
(`_last_remaining = {}` from `__init__`). -/
def runClient (env : Env) (store : Store) (atts : List Att) : RunOut :=
  runLoop env store atts 0 5 []

/-- The flag-check indices at which a run made a connection attempt,
processed a message, or slept before retrying: each such action is
guarded by the `running`-flag check whose index it records. -/
def outChecks (o : RunOut) : List Nat :=
  o.conns ++ o.procs.map (·.1) ++ o.waits.map (·.1)

/-- The backoff sequence the code produces on a trace with no stop
request: doubling capped at 300 after each sleep, reset to 5 on every
successful connection (even if the subsequent subscribe fails), no
sleep after a cleanly-ended session. -/
def backoffSpec (d : Nat) : List Att → List Nat
  | [] => []
  | .connFail :: r => d :: backoffSpec (min (d * 2) 300) r
  | .subFail :: r => 5 :: backoffSpec (min (5 * 2) 300) r
  | .sess _ true :: r => 5 :: backoffSpec (min (5 * 2) 300) r
  | .sess _ false :: r => backoffSpec 5 r

/-- Modelled from the spec: the backoff sequence claimed by C4 and
§4.5, in which the delay is reset to 5 exactly upon a successful
transition into `Subscribed` (a successful subscribe), so a failed
subscribe does not reset it.  This definition follows the spec's words
and is compared against the code's behaviour (`backoffSpec`). -/
def backoffClaim (d : Nat) : List Att → List Nat
  | [] => []
  | .connFail :: r => d :: backoffClaim (min (d * 2) 300) r
  | .subFail :: r => d :: backoffClaim (min (d * 2) 300) r
  | .sess _ true :: r => 5 :: backoffClaim (min (5 * 2) 300) r
  | .sess _ false :: r => backoffClaim 5 r

/-! ### Helper lemmas -/

theorem lookupF_cons_ne {k key : String} (h : k ≠ key) (v : JVal)
    (rest : List (String × JVal)) :
    lookupF ((k, v) :: rest) key = lookupF rest key := by
  simp [lookupF, h]

theorem tLookup_tInsert_self (st : Tracker) (k : String) (v : ℚ) :
    tLookup (tInsert st k v) k = some v := by
  induction st with
  | nil => simp [tInsert, tLookup]
  | cons hd tl ih =>
    obtain ⟨k', v'⟩ := hd
    by_cases h : k' = k <;> simp [tInsert, tLookup, h, ih]

theorem tLookup_tInsert_ne (st : Tracker) {k s : String} (h : s ≠ k) (v : ℚ) :
    tLookup (tInsert st k v) s = tLookup st s := by
  induction st with
  | nil => simp [tInsert, tLookup, Ne.symm h]
  | cons hd tl ih =>
    obtain ⟨k', v'⟩ := hd
    by_cases h' : k' = k
    · subst h'
      simp [tInsert, tLookup, Ne.symm h]
    · simp [tInsert, tLookup, h', ih]

theorem suppressedB_false_iff (st : Tracker) (tid : String) (p : ℚ) :
    suppressedB st tid p = false ↔
      ∀ last, tLookup st tid = some last → 1 / 2 ≤ |p - last| := by
  unfold suppressedB
  cases h : tLookup st tid <;> simp [not_lt]

theorem suppressedB_true_iff (st : Tracker) (tid : String) (p : ℚ) :
    suppressedB st tid p = true ↔
      ∃ last, tLookup st tid = some last ∧ |p - last| < 1 / 2 := by
  unfold suppressedB
  cases h : tLookup st tid <;> simp

/-! ### Claims about the per-record pipeline -/

/-- C1: for a record carrying a numeric remaining percentage `p`, a
weight update is dispatched for its slot if and only if the slot is a
key of the mapping, a numeric total-weight value is present in the same
record, and either no percentage was previously accepted for the slot or
`|p - prior| ≥ 0.5`; in particular a delta of exactly `0.5` is not
suppressed (the code's test at line 150 is strict `<`). -/
theorem C1_theorem (maps : Mappings) (store : Store) (st : Tracker)
    (fields : List (String × JVal)) (rv : JVal) (p : ℚ)
    (hr : fieldOrNone fields "remain" = some rv)
    (hp : pyFloat rv = some p) :
    (processTray maps store st (.jobj fields)).2.1 ≠ [] ↔
      ((mLookup maps (trayIdOf fields)).isSome
        ∧ (∃ wv w, fieldOrNone fields "tray_weight" = some wv ∧ pyFloat wv = some w)
        ∧ ∀ last, tLookup st (trayIdOf fields) = some last → 1 / 2 ≤ |p - last|) := by
  cases hm : mLookup maps (trayIdOf fields) with
  | none => simp [processTray, hm]
  | some spool =>
    cases hs : suppressedB st (trayIdOf fields) p with
    | true =>
      obtain ⟨last, hlast, hlt⟩ := (suppressedB_true_iff st (trayIdOf fields) p).mp hs
      simp only [processTray, hm, hr, hp, hs, if_true]
      simp only [ne_eq, not_true_eq_false, Option.isSome_some, true_and, false_iff]
      rintro ⟨_, hall⟩
      exact absurd (hall last hlast) (not_le.mpr hlt)
    | false =>
      cases hw : fieldOrNone fields "tray_weight" with
      | none => simp [processTray, hm, hr, hp, hs, hw]
      | some wv =>
        cases hwf : pyFloat wv with
        | none =>
          simp only [processTray, hm, hr, hp, hs, hw, hwf, Bool.false_eq_true, if_false]
          simp [hwf]
        | some w =>
          simp only [processTray, hm, hr, hp, hs, hw, hwf, Bool.false_eq_true, if_false]
          constructor
          · intro _
            exact ⟨rfl, ⟨wv, w, rfl, hwf⟩, (suppressedB_false_iff st (trayIdOf fields) p).mp hs⟩
          · intro _
            cases hst : store spool (p / 100 * w) <;> simp [hst]

/-- Witness for `C1_theorem`, at the boundary delta of exactly `0.5`:
prior accepted percentage `10`, new percentage `10.5` — the update is
dispatched, i.e. a delta of `0.5` does not suppress. -/
theorem C1_theorem_witness :
    (processTray [("0", 1)] (fun _ _ => true) [("0", 10)]
        (.jobj [("id", .jint 0), ("remain", .jnum (21 / 2)), ("tray_weight", .jint 100)])).2.1
      ≠ [] := by
  refine (C1_theorem [("0", 1)] (fun _ _ => true) [("0", 10)]
      [("id", .jint 0), ("remain", .jnum (21 / 2)), ("tray_weight", .jint 100)]
      (.jnum (21 / 2)) (21 / 2) rfl rfl).mpr
    ⟨by decide, ⟨.jint 100, 100, rfl, by decide⟩, ?_⟩
  intro last hlast
  have h10 : last = 10 := by
    have hv : tLookup [(("0" : String), (10 : ℚ))]
        (trayIdOf [("id", .jint 0), ("remain", .jnum (21 / 2)), ("tray_weight", .jint 100)])
        = some 10 := by decide
    rw [hv] at hlast
    exact (Option.some_inj.mp hlast).symm
  rw [h10]
  decide

/-- C9: when a record resolves successfully, the dispatched weight is
exactly `(remaining_percent / 100) * total_weight` (line 171), with no
clamping of out-of-range percentages or weights. -/
theorem C9_theorem (maps : Mappings) (store : Store) (st : Tracker)
    (fields : List (String × JVal)) (rv : JVal) (p : ℚ) (wv : JVal) (w : ℚ) (spool : Int)
    (hm : mLookup maps (trayIdOf fields) = some spool)
    (hr : fieldOrNone fields "remain" = some rv)
    (hp : pyFloat rv = some p)
    (hs : suppressedB st (trayIdOf fields) p = false)
    (hw : fieldOrNone fields "tray_weight" = some wv)
    (hwf : pyFloat wv = some w) :
    (processTray maps store st (.jobj fields)).2.1.map dproj
      = [(trayIdOf fields, spool, p / 100 * w)] := by
  simp only [processTray, hm, hr, hp, hs, hw, hwf, Bool.false_eq_true, if_false]
  cases hst : store spool (p / 100 * w) <;> simp [hst, dproj]

/-- Witness for `C9_theorem`: `remaining_percent = 60`,
`total_weight = 1000` dispatches exactly `600`; also exercised at the
out-of-range percentage `250`, which passes through unclamped as
`2500`. -/
theorem C9_theorem_witness :
    (processTray [("0", 1)] (fun _ _ => true) []
        (.jobj [("id", .jint 0), ("remain", .jint 60), ("tray_weight", .jint 1000)])).2.1.map dproj
      = [("0", 1, (600 : ℚ))]
    ∧ (processTray [("0", 1)] (fun _ _ => true) []
        (.jobj [("id", .jint 0), ("remain", .jint 250), ("tray_weight", .jint 1000)])).2.1.map dproj
      = [("0", 1, (2500 : ℚ))] := by
  constructor
  · exact (C9_theorem [("0", 1)] (fun _ _ => true) []
      [("id", .jint 0), ("remain", .jint 60), ("tray_weight", .jint 1000)]
      (.jint 60) 60 (.jint 1000) 1000 1 rfl rfl (by decide) rfl rfl (by decide)).trans
      (by decide)
  · exact (C9_theorem [("0", 1)] (fun _ _ => true) []
      [("id", .jint 0), ("remain", .jint 250), ("tray_weight", .jint 1000)]
      (.jint 250) 250 (.jint 1000) 1000 1 rfl rfl (by decide) rfl rfl (by decide)).trans
      (by decide)

/-- C10: the slot identifier is `str(tray.get("id", ""))` (line 127): a
tray whose `id` is the integer `0` behaves exactly like one whose `id`
is the string `"0"`; a tray with no `id` field at all is processed under
the slot identifier `""`, and with `""` mapped (to spool 7 here) it
dispatches. -/
theorem C10_theorem :
    (∀ (maps : Mappings) (store : Store) (st : Tracker) (rest : List (String × JVal)),
        processTray maps store st (.jobj (("id", .jint 0) :: rest))
          = processTray maps store st (.jobj (("id", .jstr "0") :: rest)))
    ∧ (∀ fields, lookupF fields "id" = none → trayIdOf fields = "")
    ∧ (processTray [("", 7)] (fun _ _ => true) []
        (.jobj [("remain", .jint 50), ("tray_weight", .jint 100)])).2.1.map dproj
      = [("", 7, (50 : ℚ))] := by
  refine ⟨?_, ?_, by decide⟩
  · intro maps store st rest
    have hid : trayIdOf (("id", JVal.jint 0) :: rest)
        = trayIdOf (("id", JVal.jstr "0") :: rest) := rfl
    have hrem : fieldOrNone (("id", JVal.jint 0) :: rest) "remain"
        = fieldOrNone (("id", JVal.jstr "0") :: rest) "remain" := by
      simp [fieldOrNone, lookupF]
    have htw : fieldOrNone (("id", JVal.jint 0) :: rest) "tray_weight"
        = fieldOrNone (("id", JVal.jstr "0") :: rest) "tray_weight" := by
      simp [fieldOrNone, lookupF]
    simp only [processTray]
    rw [hid, hrem, htw]
  · intro fields h
    simp [trayIdOf, h, pyStr]

theorem pres_refl (maps : Mappings) (st : Tracker) : Pres maps st st [] :=
  ⟨fun _ _ => rfl, fun _ hd => absurd hd (List.not_mem_nil _), fun h => h⟩

theorem pres_comp {maps : Mappings} {st st1 st2 : Tracker} {ds1 ds2 : List Disp}
    (h1 : Pres maps st st1 ds1) (h2 : Pres maps st1 st2 ds2) :
    Pres maps st st2 (ds1 ++ ds2) := by
  obtain ⟨a1, b1, c1⟩ := h1
  obtain ⟨a2, b2, c2⟩ := h2
  refine ⟨fun s hs => (a2 s hs).trans (a1 s hs), fun d hd => ?_, fun h => c2 (c1 h)⟩
  rcases List.mem_append.mp hd with h | h
  · exact b1 d h
  · exact b2 d h

theorem tLookup_tInsert_cases {st : Tracker} {k s : String} {v q : ℚ}
    (h : tLookup (tInsert st k v) s = some q) :
    s = k ∨ tLookup st s = some q := by
  by_cases hks : s = k
  · exact Or.inl hks
  · exact Or.inr ((tLookup_tInsert_ne st hks v) ▸ h)

theorem pres_insert (maps : Mappings) (st : Tracker) (tid : String) (p : ℚ) (spool : Int)
    (hm : mLookup maps tid = some spool) (ds : List Disp)
    (hds : ∀ d ∈ ds, d.slot = tid) :
    Pres maps st (tInsert st tid p) ds := by
  refine ⟨?_, ?_, ?_⟩
  · intro s hs
    have hne : s ≠ tid := fun h => by rw [h, hm] at hs; cases hs
    exact tLookup_tInsert_ne st hne p
  · intro d hd
    rw [hds d hd, hm]
    rfl
  · intro hk s q hlq
    rcases tLookup_tInsert_cases hlq with h | h
    · rw [h, hm]; rfl
    · exact hk s q h

theorem pres_tray (maps : Mappings) (store : Store) (st : Tracker) (t : JVal) :
    Pres maps st (processTray maps store st t).1 (processTray maps store st t).2.1 := by
  cases t with
  | jobj fields =>
    cases hm : mLookup maps (trayIdOf fields) with
    | none => simpa [processTray, hm] using pres_refl maps st
    | some spool =>
      cases hr : fieldOrNone fields "remain" with
      | none => simpa [processTray, hm, hr] using pres_refl maps st
      | some rv =>
        cases hp : pyFloat rv with
        | none => simpa [processTray, hm, hr, hp] using pres_refl maps st
        | some p =>
          cases hs : suppressedB st (trayIdOf fields) p with
          | true => simpa [processTray, hm, hr, hp, hs] using pres_refl maps st
          | false =>
            cases hw : fieldOrNone fields "tray_weight" with
            | none =>
              simp only [processTray, hm, hr, hp, hs, hw, Bool.false_eq_true, if_false]
              exact pres_insert maps st _ p spool hm [] (by simp)
            | some wv =>
              cases hwf : pyFloat wv with
              | none =>
                simp only [processTray, hm, hr, hp, hs, hw, hwf, Bool.false_eq_true, if_false]
                exact pres_insert maps st _ p spool hm [] (by simp)
              | some w =>
                simp only [processTray, hm, hr, hp, hs, hw, hwf, Bool.false_eq_true, if_false]
                cases hst : store spool (p / 100 * w) <;>
                  simp only [Bool.false_eq_true, if_false, if_true] <;>
                  exact pres_insert maps st _ p spool hm _
                    (by intro d hd; rcases List.mem_singleton.mp hd with rfl; rfl)
  | jnull => simpa [processTray] using pres_refl maps st
  | jbool b => simpa [processTray] using pres_refl maps st
  | jint n => simpa [processTray] using pres_refl maps st
  | jnum q => simpa [processTray] using pres_refl maps st
  | jstr s => simpa [processTray] using pres_refl maps st
  | jarr xs => simpa [processTray] using pres_refl maps st

theorem pres_trays (maps : Mappings) (store : Store) :
    ∀ (ts : List JVal) (st : Tracker),
      Pres maps st (processTrays maps store st ts).1 (processTrays maps store st ts).2.1 := by
  intro ts
  induction ts with
  | nil => intro st; simpa [processTrays] using pres_refl maps st
  | cons t ts ih =>
    intro st
    simp only [processTrays]
    exact pres_comp (pres_tray maps store st t) (ih _)

theorem pres_unit (maps : Mappings) (store : Store) (st : Tracker) (u : JVal) :
    Pres maps st (processUnit maps store st u).1 (processUnit maps store st u).2.1 := by
  cases h : unitRes u with
  | skip => simpa [processUnit, h] using pres_refl maps st
  | abort => simpa [processUnit, h] using pres_refl maps st
  | trays ts => simpa [processUnit, h] using pres_trays maps store ts st

theorem pres_units (maps : Mappings) (store : Store) :
    ∀ (us : List JVal) (st : Tracker),
      Pres maps st (processUnits maps store st us).1 (processUnits maps store st us).2.1 := by
  intro us
  induction us with
  | nil => intro st; simpa [processUnits] using pres_refl maps st
  | cons u us ih =>
    intro st
    simp only [processUnits]
    by_cases h : (processUnit maps store st u).2.2.2
    · simpa [h] using pres_unit maps store st u
    · simpa [h] using pres_comp (pres_unit maps store st u) (ih _)

theorem pres_ams (maps : Mappings) (store : Store) (st : Tracker) (amsData : JVal) :
    Pres maps st (processAmsData maps store st amsData).1
      (processAmsData maps store st amsData).2.1 := by
  by_cases ht : truthy amsData
  · cases hi : pyIter amsData with
    | none => simpa [processAmsData, ht, hi] using pres_refl maps st
    | some us => simpa [processAmsData, ht, hi] using pres_units maps store us st
  · simpa [processAmsData, ht] using pres_refl maps st

theorem pres_message (maps : Mappings) (store : Store) (st : Tracker) (m : Raw) :
    Pres maps st (processMessage maps store st m).1 (processMessage maps store st m).2.1 := by
  cases m with
  | malformed => simpa [processMessage] using pres_refl maps st
  | wellFormed v =>
    cases hin : pyInStr "print" v with
    | none => simpa [processMessage, hin] using pres_refl maps st
    | some b =>
      cases b with
      | false => simpa [processMessage, hin] using pres_refl maps st
      | true =>
        cases hsub : pySub v "print" with
        | none => simpa [processMessage, hin, hsub] using pres_refl maps st
        | some printData =>
          cases hg1 : pyGetD printData "ams" (.jobj []) with
          | none => simpa [processMessage, hin, hsub, hg1] using pres_refl maps st
          | some amsField =>
            cases hg2 : pyGetD amsField "ams" (.jarr []) with
            | none => simpa [processMessage, hin, hsub, hg1, hg2] using pres_refl maps st
            | some amsData =>
              by_cases ht : truthy amsData
              · simpa [processMessage, hin, hsub, hg1, hg2, ht]
                  using pres_ams maps store st amsData
              · simpa [processMessage, hin, hsub, hg1, hg2, ht] using pres_refl maps st

theorem suppressedB_congr {st1 st2 : Tracker} {s : String} (p : ℚ)
    (h : tLookup st2 s = tLookup st1 s) :
    suppressedB st2 s p = suppressedB st1 s p := by
  unfold suppressedB
  rw [h]

theorem suppressedB_self {st : Tracker} {s : String} {p : ℚ}
    (h : tLookup st s = some p) : suppressedB st s p = true := by
  unfold suppressedB
  rw [h]
  norm_num

theorem tray_advances (maps : Mappings) (store : Store) (st : Tracker)
    (fields : List (String × JVal)) (rv : JVal) (p : ℚ) (spool : Int)
    (hm : mLookup maps (trayIdOf fields) = some spool)
    (hr : fieldOrNone fields "remain" = some rv)
    (hp : pyFloat rv = some p)
    (hs : suppressedB st (trayIdOf fields) p = false) :
    tLookup (processTray maps store st (.jobj fields)).1 (trayIdOf fields) = some p := by
  cases hw : fieldOrNone fields "tray_weight" with
  | none =>
    simp only [processTray, hm, hr, hp, hs, hw, Bool.false_eq_true, if_false]
    exact tLookup_tInsert_self st _ p
  | some wv =>
    cases hwf : pyFloat wv with
    | none =>
      simp only [processTray, hm, hr, hp, hs, hw, hwf, Bool.false_eq_true, if_false]
      exact tLookup_tInsert_self st _ p
    | some w =>
      simp only [processTray, hm, hr, hp, hs, hw, hwf, Bool.false_eq_true, if_false]
      cases hst : store spool (p / 100 * w) <;>
        simpa [hst] using tLookup_tInsert_self st (trayIdOf fields) p

theorem tray_suppressed_nodispatch (maps : Mappings) (store : Store) (st : Tracker)
    (fields : List (String × JVal)) (rv : JVal) (p : ℚ)
    (hr : fieldOrNone fields "remain" = some rv)
    (hp : pyFloat rv = some p)
    (hs : suppressedB st (trayIdOf fields) p = true) :
    (processTray maps store st (.jobj fields)).2.1 = [] := by
  cases hm : mLookup maps (trayIdOf fields) with
  | none => simp [processTray, hm]
  | some spool => simp [processTray, hm, hr, hp, hs]

theorem tray_other_slot (maps : Mappings) (store : Store) (st : Tracker) (t : JVal)
    (s : String) (h : isRecFor s t = false) :
    tLookup (processTray maps store st t).1 s = tLookup st s
    ∧ ∀ d ∈ (processTray maps store st t).2.1, d.slot ≠ s := by
  cases t with
  | jobj fields =>
    have hne : s ≠ trayIdOf fields := by
      simp only [isRecFor, decide_eq_false_iff_not] at h
      exact fun hh => h hh.symm
    cases hm : mLookup maps (trayIdOf fields) with
    | none => simp [processTray, hm]
    | some spool =>
      cases hr : fieldOrNone fields "remain" with
      | none => simp [processTray, hm, hr]
      | some rv =>
        cases hp : pyFloat rv with
        | none => simp [processTray, hm, hr, hp]
        | some p =>
          cases hs : suppressedB st (trayIdOf fields) p with
          | true => simp [processTray, hm, hr, hp, hs]
          | false =>
            cases hw : fieldOrNone fields "tray_weight" with
            | none =>
              simp [processTray, hm, hr, hp, hs, hw, tLookup_tInsert_ne st hne p]
            | some wv =>
              cases hwf : pyFloat wv with
              | none =>
                simp [processTray, hm, hr, hp, hs, hw, hwf, tLookup_tInsert_ne st hne p]
              | some w =>
                cases hst : store spool (p / 100 * w) <;>
                  simp [processTray, hm, hr, hp, hs, hw, hwf, hst,
                    tLookup_tInsert_ne st hne p, Ne.symm hne]
  | jnull => simp [processTray]
  | jbool b => simp [processTray]
  | jint n => simp [processTray]
  | jnum q => simp [processTray]
  | jstr str => simp [processTray]
  | jarr xs => simp [processTray]

theorem tray_replay_nodispatch (maps : Mappings) (store : Store)
    (st1 st2 : Tracker) (fields : List (String × JVal))
    (hagree : tLookup st2 (trayIdOf fields)
      = tLookup (processTray maps store st1 (.jobj fields)).1 (trayIdOf fields)) :
    (processTray maps store st2 (.jobj fields)).2.1 = [] := by
  cases hm : mLookup maps (trayIdOf fields) with
  | none => simp [processTray, hm]
  | some spool =>
    cases hr : fieldOrNone fields "remain" with
    | none => simp [processTray, hm, hr]
    | some rv =>
      cases hp : pyFloat rv with
      | none => simp [processTray, hm, hr, hp]
      | some p =>
        cases hs1 : suppressedB st1 (trayIdOf fields) p with
        | true =>
          have h1 : (processTray maps store st1 (.jobj fields)).1 = st1 := by
            simp [processTray, hm, hr, hp, hs1]
          rw [h1] at hagree
          exact tray_suppressed_nodispatch maps store st2 fields rv p hr hp
            ((suppressedB_congr p hagree).trans hs1)
        | false =>
          have h1 := tray_advances maps store st1 fields rv p spool hm hr hp hs1
          rw [h1] at hagree
          exact tray_suppressed_nodispatch maps store st2 fields rv p hr hp
            (suppressedB_self hagree)

theorem trays_no_occ (maps : Mappings) (store : Store) (s : String) :
    ∀ (ts : List JVal) (st : Tracker), countOcc s ts = 0 →
      tLookup (processTrays maps store st ts).1 s = tLookup st s
      ∧ ∀ d ∈ (processTrays maps store st ts).2.1, d.slot ≠ s := by
  intro ts
  induction ts with
  | nil => intro st _; simp [processTrays]
  | cons t ts ih =>
    intro st h0
    have hrec : isRecFor s t = false := by
      cases hq : isRecFor s t
      · rfl
      · simp [countOcc, List.filter_cons, hq] at h0
    have htail : countOcc s ts = 0 := by
      simpa [countOcc, List.filter_cons, hrec] using h0
    obtain ⟨ha, hb⟩ := tray_other_slot maps store st t s hrec
    obtain ⟨hc, hd⟩ := ih (processTray maps store st t).1 htail
    refine ⟨?_, ?_⟩
    · simp only [processTrays]
      exact hc.trans ha
    · simp only [processTrays]
      intro d hdm
      rcases List.mem_append.mp hdm with h | h
      · exact hb d h
      · exact hd d h

theorem trays_replay (maps : Mappings) (store : Store) (s : String) :
    ∀ (ts : List JVal) (st1 st2 : Tracker),
      countOcc s ts ≤ 1 →
      tLookup st2 s = tLookup (processTrays maps store st1 ts).1 s →
      ∀ d ∈ (processTrays maps store st2 ts).2.1, d.slot ≠ s := by
  intro ts
  induction ts with
  | nil => intro st1 st2 _ _; simp [processTrays]
  | cons t ts ih =>
    intro st1 st2 hocc hagr
    simp only [processTrays] at hagr ⊢
    cases hrec : isRecFor s t with
    | false =>
      have hocc' : countOcc s ts ≤ 1 := by
        simpa [countOcc, List.filter_cons, hrec] using hocc
      obtain ⟨ha2, hb2⟩ := tray_other_slot maps store st2 t s hrec
      intro d hd
      rcases List.mem_append.mp hd with h | h
      · exact hb2 d h
      · refine ih (processTray maps store st1 t).1 (processTray maps store st2 t).1 hocc' ?_ d h
        rw [ha2]
        exact hagr
    | true =>
      have hocc0 : countOcc s ts = 0 := by
        simp only [countOcc, List.filter_cons, hrec, if_true, List.length_cons] at hocc
        simp only [countOcc]
        omega
      have hskip := (trays_no_occ maps store s ts (processTray maps store st1 t).1 hocc0).1
      rw [hskip] at hagr
      cases t with
      | jobj fields =>
        have hid : trayIdOf fields = s := by
          simpa [isRecFor] using hrec
        subst hid
        have hnod := tray_replay_nodispatch maps store st1 st2 fields hagr
        intro d hd
        rcases List.mem_append.mp hd with h | h
        · rw [hnod] at h
          cases h
        · exact (trays_no_occ maps store (trayIdOf fields) ts
            (processTray maps store st2 (.jobj fields)).1 hocc0).2 d h
      | jnull => simp [isRecFor] at hrec
      | jbool b => simp [isRecFor] at hrec
      | jint n => simp [isRecFor] at hrec
      | jnum q => simp [isRecFor] at hrec
      | jstr str => simp [isRecFor] at hrec
      | jarr xs => simp [isRecFor] at hrec

theorem processTrays_append (maps : Mappings) (store : Store) (a b : List JVal) :
    ∀ st : Tracker,
      processTrays maps store st (a ++ b)
        = ((processTrays maps store (processTrays maps store st a).1 b).1,
           (processTrays maps store st a).2.1
             ++ (processTrays maps store (processTrays maps store st a).1 b).2.1,
           (processTrays maps store st a).2.2
             ++ (processTrays maps store (processTrays maps store st a).1 b).2.2) := by
  induction a with
  | nil => intro st; simp [processTrays]
  | cons t ts ih => intro st; simp [processTrays, ih]

theorem units_factor (maps : Mappings) (store : Store) :
    ∀ (us : List JVal) (st : Tracker),
      (processUnits maps store st us).1
          = (processTrays maps store st (traysOfUnits us)).1
      ∧ (processUnits maps store st us).2.1
          = (processTrays maps store st (traysOfUnits us)).2.1 := by
  intro us
  induction us with
  | nil => intro st; simp [processUnits, traysOfUnits, processTrays]
  | cons u us ih =>
    intro st
    cases hu : unitRes u with
    | skip => simpa [processUnits, processUnit, traysOfUnits, hu] using ih st
    | abort => simp [processUnits, processUnit, traysOfUnits, hu, processTrays]
    | trays ts =>
      obtain ⟨ih1, ih2⟩ := ih (processTrays maps store st ts).1
      simp [processUnits, processUnit, hu, traysOfUnits, processTrays_append, ih1, ih2]

theorem message_factor (maps : Mappings) (store : Store) (st : Tracker) (m : Raw) :
    (processMessage maps store st m).1 = (processTrays maps store st (traysOf m)).1
    ∧ (processMessage maps store st m).2.1
        = (processTrays maps store st (traysOf m)).2.1 := by
  cases m with
  | malformed => simp [processMessage, traysOf, processTrays]
  | wellFormed v =>
    cases hin : pyInStr "print" v with
    | none => simp [processMessage, traysOf, hin, processTrays]
    | some b =>
      cases b with
      | false => simp [processMessage, traysOf, hin, processTrays]
      | true =>
        cases hsub : pySub v "print" with
        | none => simp [processMessage, traysOf, hin, hsub, processTrays]
        | some printData =>
          cases hg1 : pyGetD printData "ams" (.jobj []) with
          | none => simp [processMessage, traysOf, hin, hsub, hg1, processTrays]
          | some amsField =>
            cases hg2 : pyGetD amsField "ams" (.jarr []) with
            | none => simp [processMessage, traysOf, hin, hsub, hg1, hg2, processTrays]
            | some amsData =>
              by_cases ht : truthy amsData
              · cases hi : pyIter amsData with
                | none =>
                  simp [processMessage, traysOf, processAmsData, hin, hsub, hg1, hg2,
                    ht, hi, processTrays]
                | some us =>
                  have := units_factor maps store us st
                  simp [processMessage, traysOf, processAmsData, hin, hsub, hg1, hg2,
                    ht, hi, this.1, this.2]
              · simp [processMessage, traysOf, hin, hsub, hg1, hg2, ht, processTrays]

/-- C3 (corrected), counterexample: a well-formed message carrying two
tray records for slot `"0"` (one per AMS unit, remains `10` and `50`).
Processing it once dispatches twice and leaves the baseline at `50`;
replaying the identical message immediately afterwards dispatches twice
more for slot `"0"` (the claim asserts zero further dispatches). -/
theorem C3_counterexample :
    ((processMessage [("0", 1)] (fun _ _ => true)
        (processMessage [("0", 1)] (fun _ _ => true) []
          (.wellFormed (.jobj [("print", .jobj [("ams", .jobj [("ams", .jarr
            [.jobj [("tray", .jarr [.jobj [("id", .jint 0), ("remain", .jint 10),
               ("tray_weight", .jint 100)]])],
             .jobj [("tray", .jarr [.jobj [("id", .jint 0), ("remain", .jint 50),
               ("tray_weight", .jint 100)]])]])])])]))).1
        (.wellFormed (.jobj [("print", .jobj [("ams", .jobj [("ams", .jarr
          [.jobj [("tray", .jarr [.jobj [("id", .jint 0), ("remain", .jint 10),
             ("tray_weight", .jint 100)]])],
           .jobj [("tray", .jarr [.jobj [("id", .jint 0), ("remain", .jint 50),
             ("tray_weight", .jint 100)]])]])])])]))).2.1.map dproj)
      = [("0", 1, 10), ("0", 1, 50)] := by
  decide

/-- C3 (amended): whenever a mapped slot's new percentage passes the
change filter, the tracker baseline is set to the new percentage
regardless of whether the record's total-weight is present and numeric;
and for every message in which the slot's identifier occurs in at most
one tray record, replaying the identical message immediately afterwards
yields zero further dispatches for that slot.  (The single-occurrence
restriction is forced by the counterexample: with two records for one
slot in the same message — e.g. one per AMS unit — the baseline
oscillates and every replay re-dispatches.) -/
theorem C3_theorem (maps : Mappings) (store : Store) :
    (∀ (st : Tracker) (fields : List (String × JVal)) (rv : JVal) (p : ℚ) (spool : Int),
        mLookup maps (trayIdOf fields) = some spool →
        fieldOrNone fields "remain" = some rv →
        pyFloat rv = some p →
        suppressedB st (trayIdOf fields) p = false →
        tLookup (processTray maps store st (.jobj fields)).1 (trayIdOf fields) = some p)
    ∧ (∀ (st : Tracker) (m : Raw) (s : String),
        countOcc s (traysOf m) ≤ 1 →
        ((processMessage maps store
            (processMessage maps store st m).1 m).2.1.filter (fun d => d.slot = s)) = []) := by
  constructor
  · intro st fields rv p spool hm hr hp hs
    exact tray_advances maps store st fields rv p spool hm hr hp hs
  · intro st m s hocc
    rw [List.filter_eq_nil_iff]
    intro d hd
    have h2 := (message_factor maps store (processMessage maps store st m).1 m).2
    rw [h2] at hd
    have h1 := (message_factor maps store st m).1
    have hrep := trays_replay maps store s (traysOf m) st
      (processMessage maps store st m).1 hocc (by rw [h1]) d hd
    simpa using hrep

/-- Witness for `C3_theorem`: a single-record message dispatches on
first processing and yields no dispatch for its slot on replay. -/
theorem C3_theorem_witness :
    ((processMessage [("0", 1)] (fun _ _ => true)
        (processMessage [("0", 1)] (fun _ _ => true) []
          (.wellFormed (.jobj [("print", .jobj [("ams", .jobj [("ams", .jarr
            [.jobj [("tray", .jarr [.jobj [("id", .jint 0), ("remain", .jint 60),
              ("tray_weight", .jint 1000)]])]])])])]))).1
        (.wellFormed (.jobj [("print", .jobj [("ams", .jobj [("ams", .jarr
          [.jobj [("tray", .jarr [.jobj [("id", .jint 0), ("remain", .jint 60),
            ("tray_weight", .jint 1000)]])]])])])]))).2.1.filter (fun d => d.slot = "0"))
      = [] :=
  (C3_theorem [("0", 1)] (fun _ _ => true)).2 []
    (.wellFormed (.jobj [("print", .jobj [("ams", .jobj [("ams", .jarr
      [.jobj [("tray", .jarr [.jobj [("id", .jint 0), ("remain", .jint 60),
        ("tray_weight", .jint 1000)]])]])])])])) "0" (by decide)

/-- C8: for every message and every slot identifier absent from the slot
mapping, processing the message neither creates nor modifies a tracker
entry for that identifier and emits no dispatch for it; consequently the
invariant that every tracker key is a mapping key is preserved by
processing any message. -/
theorem C8_theorem (maps : Mappings) (store : Store) (st : Tracker) (m : Raw) :
    (∀ s, mLookup maps s = none →
        tLookup (processMessage maps store st m).1 s = tLookup st s)
    ∧ (∀ d ∈ (processMessage maps store st m).2.1, (mLookup maps d.slot).isSome)
    ∧ (keysMapped maps st → keysMapped maps (processMessage maps store st m).1) :=
  pres_message maps store st m

/-- Witness for `C8_theorem`: a message for the unmapped slot `"5"`
leaves the tracker's `"5"` entry unchanged (absent). -/
theorem C8_theorem_witness :
    tLookup (processMessage [("0", 1)] (fun _ _ => true) []
        (.wellFormed (.jobj [("print", .jobj [("ams", .jobj [("ams", .jarr
          [.jobj [("tray", .jarr [.jobj [("id", .jint 5), ("remain", .jint 50),
            ("tray_weight", .jint 100)]])]])])])]))).1 "5"
      = tLookup [] "5" :=
  (C8_theorem [("0", 1)] (fun _ _ => true) []
      (.wellFormed (.jobj [("print", .jobj [("ams", .jobj [("ams", .jarr
        [.jobj [("tray", .jarr [.jobj [("id", .jint 5), ("remain", .jint 50),
          ("tray_weight", .jint 100)]])]])])])]))).1 "5" rfl

theorem runSess_noStop (env : Env) (store : Store) (h : env.stopAfter = none) :
    ∀ (msgs : List Raw) (k : Nat) (st : Tracker),
      (runSess env store msgs k st).broke = false := by
  intro msgs
  induction msgs with
  | nil => intro k st; simp [runSess]
  | cons m ms ih => intro k st; simp [runSess, checkRun, h, ih]

/-- C4 (corrected), counterexample: on the trace connect-fail,
connect-fail, connect-then-subscribe-fail, connect-fail, the code waits
`5, 10, 5, 10` — the delay was reset by the successful *connection*
(line 261) even though the subscribe failed and `Subscribed` was never
reached; the claim's reset-exactly-on-subscribe rule (`backoffClaim`)
predicts `5, 10, 20, 40`. -/
theorem C4_counterexample :
    (runLoop ⟨[], none⟩ (fun _ _ => true)
        [.connFail, .connFail, .subFail, .connFail] 0 5 []).waits.map (·.2)
      = [5, 10, 5, 10]
    ∧ backoffClaim 5 [.connFail, .connFail, .subFail, .connFail] = [5, 10, 20, 40]
    ∧ ([5, 10, 5, 10] : List Nat) ≠ [5, 10, 20, 40] :=
  ⟨rfl, rfl, by decide⟩

/-- C4 (amended): in the reconnect loop (no stop requested), the backoff
delay starts at 5, doubles after each consecutive failed connection
attempt capped at 300 — four consecutive failures wait `5, 10, 20, 40` —
and it is reset to 5 upon every successful connection establishment,
which happens before the subscribe: a failed subscribe therefore also
waits the floor of 5, not the escalated delay.  The full wait sequence
is `backoffSpec`. -/
theorem C4_theorem :
    (∀ (env : Env) (store : Store) (atts : List Att) (k d : Nat) (st : Tracker),
        env.stopAfter = none →
        (runLoop env store atts k d st).waits.map (·.2) = backoffSpec d atts)
    ∧ backoffSpec 5 [.connFail, .connFail, .connFail, .connFail] = [5, 10, 20, 40]
    ∧ backoffSpec 5 [.connFail, .connFail, .sess [] true, .connFail] = [5, 10, 5, 10] := by
  refine ⟨?_, rfl, rfl⟩
  intro env store atts
  induction atts with
  | nil => intro k d st h; simp [runLoop, checkRun, h, backoffSpec]
  | cons a rest ih =>
    intro k d st h
    cases a with
    | connFail => simp [runLoop, checkRun, h, backoffSpec, ih _ _ _ h]
    | subFail => simp [runLoop, checkRun, h, backoffSpec, ih _ _ _ h]
    | sess msgs endsErr =>
      have hb := runSess_noStop env store h msgs (k + 1) st
      cases endsErr with
      | true => simp [runLoop, checkRun, h, backoffSpec, hb, ih _ _ _ h]
      | false => simp [runLoop, checkRun, h, backoffSpec, hb, ih _ _ _ h]

/-- Witness for `C4_theorem` on the four-consecutive-failures trace. -/
theorem C4_theorem_witness :
    (runLoop ⟨[], none⟩ (fun _ _ => true)
        [.connFail, .connFail, .connFail, .connFail] 0 5 []).waits.map (·.2)
      = backoffSpec 5 [.connFail, .connFail, .connFail, .connFail] :=
  C4_theorem.1 ⟨[], none⟩ (fun _ _ => true)
    [.connFail, .connFail, .connFail, .connFail] 0 5 [] rfl

theorem checkRun_lt {env : Env} {s i : Nat} (h : env.stopAfter = some s)
    (hc : checkRun env i = true) : i < s := by
  unfold checkRun at hc
  rw [h] at hc
  exact of_decide_eq_true hc

theorem runSess_checks (env : Env) (store : Store) :
    ∀ (msgs : List Raw) (k : Nat) (st : Tracker),
      ∀ p ∈ (runSess env store msgs k st).procs, checkRun env p.1 = true := by
  intro msgs
  induction msgs with
  | nil => intro k st p hp; simp [runSess] at hp
  | cons m ms ih =>
    intro k st p hp
    by_cases hc : checkRun env k
    · simp only [runSess, hc, if_true] at hp
      rcases List.mem_cons.mp hp with rfl | hmem
      · exact hc
      · exact ih (k + 1) _ p hmem
    · simp [runSess, hc] at hp
theorem runLoop_conns_checks (env : Env) (store : Store) :
    ∀ (atts : List Att) (k d : Nat) (st : Tracker),
      ∀ i ∈ (runLoop env store atts k d st).conns, checkRun env i = true := by
  intro atts
  induction atts with
  | nil =>
    intro k d st
    by_cases hc : checkRun env k <;> simp [runLoop, hc]
  | cons a rest ih =>
    intro k d st
    by_cases hc : checkRun env k
    · cases a with
      | connFail =>
        by_cases hc2 : checkRun env (k + 1) <;>
          simp only [runLoop, hc, hc2, if_true, if_false, Bool.false_eq_true] <;>
          intro i hi
        · rcases List.mem_cons.mp hi with rfl | hi
          · exact hc
          · exact ih _ _ _ i hi
        · rcases List.mem_singleton.mp hi with rfl
          exact hc
      | subFail =>
        by_cases hc2 : checkRun env (k + 1) <;>
          simp only [runLoop, hc, hc2, if_true, if_false, Bool.false_eq_true] <;>
          intro i hi
        · rcases List.mem_cons.mp hi with rfl | hi
          · exact hc
          · exact ih _ _ _ i hi
        · rcases List.mem_singleton.mp hi with rfl
          exact hc
      | sess msgs endsErr =>
        by_cases hbr : (runSess env store msgs (k + 1) st).broke
        · simp only [runLoop, hc, hbr, if_true]
          intro i hi
          rcases List.mem_cons.mp hi with rfl | hi
          · exact hc
          · exact ih _ _ _ i hi
        · cases endsErr with
          | true =>
            by_cases hc2 : checkRun env (runSess env store msgs (k + 1) st).next <;>
              simp only [runLoop, hc, hbr, hc2, if_true, if_false, Bool.false_eq_true] <;>
              intro i hi
            · rcases List.mem_cons.mp hi with rfl | hi
              · exact hc
              · exact ih _ _ _ i hi
            · rcases List.mem_singleton.mp hi with rfl
              exact hc
          | false =>
            simp only [runLoop, hc, hbr, if_true, if_false, Bool.false_eq_true]
            intro i hi
            rcases List.mem_cons.mp hi with rfl | hi
            · exact hc
            · exact ih _ _ _ i hi
    · cases a <;> simp [runLoop, hc]

theorem runLoop_procs_checks (env : Env) (store : Store) :
    ∀ (atts : List Att) (k d : Nat) (st : Tracker),
      ∀ p ∈ (runLoop env store atts k d st).procs, checkRun env p.1 = true := by
  intro atts
  induction atts with
  | nil =>
    intro k d st
    by_cases hc : checkRun env k <;> simp [runLoop, hc]
  | cons a rest ih =>
    intro k d st
    by_cases hc : checkRun env k
    · cases a with
      | connFail =>
        by_cases hc2 : checkRun env (k + 1) <;>
          simp only [runLoop, hc, hc2, if_true, if_false, Bool.false_eq_true] <;>
          intro p hp
        · exact ih _ _ _ p hp
        · cases hp
      | subFail =>
        by_cases hc2 : checkRun env (k + 1) <;>
          simp only [runLoop, hc, hc2, if_true, if_false, Bool.false_eq_true] <;>
          intro p hp
        · exact ih _ _ _ p hp
        · cases hp
      | sess msgs endsErr =>
        have hsess := runSess_checks env store msgs (k + 1) st
        by_cases hbr : (runSess env store msgs (k + 1) st).broke
        · simp only [runLoop, hc, hbr, if_true]
          intro p hp
          rcases List.mem_append.mp hp with hp | hp
          · exact hsess p hp
          · exact ih _ _ _ p hp
        · cases endsErr with
          | true =>
            by_cases hc2 : checkRun env (runSess env store msgs (k + 1) st).next <;>
              simp only [runLoop, hc, hbr, hc2, if_true, if_false, Bool.false_eq_true] <;>
              intro p hp
            · rcases List.mem_append.mp hp with hp | hp
              · exact hsess p hp
              · exact ih _ _ _ p hp
            · exact hsess p hp
          | false =>
            simp only [runLoop, hc, hbr, if_true, if_false, Bool.false_eq_true]
            intro p hp
            rcases List.mem_append.mp hp with hp | hp
            · exact hsess p hp
            · exact ih _ _ _ p hp
    · cases a <;> simp [runLoop, hc]

theorem runLoop_waits_checks (env : Env) (store : Store) :
    ∀ (atts : List Att) (k d : Nat) (st : Tracker),
      ∀ w ∈ (runLoop env store atts k d st).waits, checkRun env w.1 = true := by
  intro atts
  induction atts with
  | nil =>
    intro k d st
    by_cases hc : checkRun env k <;> simp [runLoop, hc]
  | cons a rest ih =>
    intro k d st
    by_cases hc : checkRun env k
    · cases a with
      | connFail =>
        by_cases hc2 : checkRun env (k + 1) <;>
          simp only [runLoop, hc, hc2, if_true, if_false, Bool.false_eq_true] <;>
          intro w hw
        · rcases List.mem_cons.mp hw with rfl | hw
          · exact hc2
          · exact ih _ _ _ w hw
        · cases hw
      | subFail =>
        by_cases hc2 : checkRun env (k + 1) <;>
          simp only [runLoop, hc, hc2, if_true, if_false, Bool.false_eq_true] <;>
          intro w hw
        · rcases List.mem_cons.mp hw with rfl | hw
          · exact hc2
          · exact ih _ _ _ w hw
        · cases hw
      | sess msgs endsErr =>
        by_cases hbr : (runSess env store msgs (k + 1) st).broke
        · simp only [runLoop, hc, hbr, if_true]
          intro w hw
          exact ih _ _ _ w hw
        · cases endsErr with
          | true =>
            by_cases hc2 : checkRun env (runSess env store msgs (k + 1) st).next <;>
              simp only [runLoop, hc, hbr, hc2, if_true, if_false, Bool.false_eq_true] <;>
              intro w hw
            · rcases List.mem_cons.mp hw with rfl | hw
              · exact hc2
              · exact ih _ _ _ w hw
            · cases hw
          | false =>
            simp only [runLoop, hc, hbr, if_true, if_false, Bool.false_eq_true]
            intro w hw
            exact ih _ _ _ w hw
    · cases a <;> simp [runLoop, hc]

/-- C7: once the `running` flag is false, the supervisor makes no
further connection attempt, processes no further message, and performs
no further backoff sleep: every such action is guarded by a flag check
(loop top, message-receive iteration, or error handler) that still read
`True`, i.e. whose index precedes the stop point. -/
theorem C7_theorem (env : Env) (store : Store) (sb : Nat)
    (h : env.stopAfter = some sb) (atts : List Att) (k d : Nat) (st : Tracker) :
    ∀ i ∈ outChecks (runLoop env store atts k d st), i < sb := by
  intro i hi
  rcases List.mem_append.mp hi with hi | hi
  · rcases List.mem_append.mp hi with hi | hi
    · exact checkRun_lt h (runLoop_conns_checks env store atts k d st i hi)
    · obtain ⟨p, hp, rfl⟩ := List.mem_map.mp hi
      exact checkRun_lt h (runLoop_procs_checks env store atts k d st p hp)
  · obtain ⟨w, hw, rfl⟩ := List.mem_map.mp hi
    exact checkRun_lt h (runLoop_waits_checks env store atts k d st w hw)

/-- Witness for `C7_theorem`: with stop observed from check 2 onwards,
the run on three connect-failures acts only at checks before the stop
point (its connection attempt, at check 0, is bounded by 2). -/
theorem C7_theorem_witness :
    0 ∈ outChecks (runLoop ⟨[], some 2⟩ (fun _ _ => true)
        [.connFail, .connFail, .connFail] 0 5 [])
    ∧ (0 : Nat) < 2 :=
  ⟨by decide, C7_theorem ⟨[], some 2⟩ (fun _ _ => true) 2 rfl
    [.connFail, .connFail, .connFail] 0 5 [] 0 (by decide)⟩

/-- C5: a message whose payload is not valid JSON produces zero
dispatches, leaves the tracker (and all client state) unchanged with
only a warning logged, and does not disturb the message loop: a session
beginning with a malformed message continues exactly as the same
session without it (its remaining messages are processed identically,
and the session does not break). -/
theorem C5_theorem :
    (∀ (maps : Mappings) (store : Store) (st : Tracker),
        processMessage maps store st .malformed = (st, [], [.warnDecode]))
    ∧ (∀ (env : Env) (store : Store) (msgs : List Raw) (k : Nat) (st : Tracker),
        env.stopAfter = none →
        runSess env store (.malformed :: msgs) k st
          = { runSess env store msgs (k + 1) st with
              procs := (k, .malformed) :: (runSess env store msgs (k + 1) st).procs,
              logs := .warnDecode :: (runSess env store msgs (k + 1) st).logs }) := by
  constructor
  · intro maps store st
    rfl
  · intro env store msgs k st h
    have hc : checkRun env k = true := by simp [checkRun, h]
    simp [runSess, hc, processMessage]

/-- Witness for `C5_theorem`: a session consisting of one malformed
message, with no stop requested. -/
theorem C5_theorem_witness :
    runSess ⟨[], none⟩ (fun _ _ => true) [.malformed] 0 []
      = { runSess ⟨[], none⟩ (fun _ _ => true) [] 1 [] with
          procs := (0, .malformed) :: (runSess ⟨[], none⟩ (fun _ _ => true) [] 1 []).procs,
          logs := .warnDecode :: (runSess ⟨[], none⟩ (fun _ _ => true) [] 1 []).logs } :=
  C5_theorem.2 ⟨[], none⟩ (fun _ _ => true) [] 0 [] rfl

theorem store_indep_tray (maps : Mappings) (s1 s2 : Store) (st : Tracker) (t : JVal) :
    (processTray maps s1 st t).1 = (processTray maps s2 st t).1
    ∧ (processTray maps s1 st t).2.1.map dproj
        = (processTray maps s2 st t).2.1.map dproj := by
  cases t with
  | jobj fields =>
    cases hm : mLookup maps (trayIdOf fields) with
    | none => simp [processTray, hm]
    | some spool =>
      cases hr : fieldOrNone fields "remain" with
      | none => simp [processTray, hm, hr]
      | some rv =>
        cases hp : pyFloat rv with
        | none => simp [processTray, hm, hr, hp]
        | some p =>
          cases hs : suppressedB st (trayIdOf fields) p with
          | true => simp [processTray, hm, hr, hp, hs]
          | false =>
            cases hw : fieldOrNone fields "tray_weight" with
            | none => simp [processTray, hm, hr, hp, hs, hw]
            | some wv =>
              cases hwf : pyFloat wv with
              | none => simp [processTray, hm, hr, hp, hs, hw, hwf]
              | some w =>
                cases h1 : s1 spool (p / 100 * w) <;> cases h2 : s2 spool (p / 100 * w) <;>
                  simp [processTray, hm, hr, hp, hs, hw, hwf, h1, h2, dproj]
  | jnull => simp [processTray]
  | jbool b => simp [processTray]
  | jint n => simp [processTray]
  | jnum q => simp [processTray]
  | jstr str => simp [processTray]
  | jarr xs => simp [processTray]

theorem store_indep_trays (maps : Mappings) (s1 s2 : Store) :
    ∀ (ts : List JVal) (st : Tracker),
      (processTrays maps s1 st ts).1 = (processTrays maps s2 st ts).1
      ∧ (processTrays maps s1 st ts).2.1.map dproj
          = (processTrays maps s2 st ts).2.1.map dproj := by
  intro ts
  induction ts with
  | nil => intro st; simp [processTrays]
  | cons t ts ih =>
    intro st
    obtain ⟨h1, h2⟩ := store_indep_tray maps s1 s2 st t
    constructor
    · simp only [processTrays]
      rw [h1]
      exact (ih (processTray maps s2 st t).1).1
    · simp only [processTrays, List.map_append]
      rw [h1, h2, (ih (processTray maps s2 st t).1).2]

theorem store_indep_unit (maps : Mappings) (s1 s2 : Store) (st : Tracker) (u : JVal) :
    (processUnit maps s1 st u).1 = (processUnit maps s2 st u).1
    ∧ (processUnit maps s1 st u).2.1.map dproj = (processUnit maps s2 st u).2.1.map dproj
    ∧ (processUnit maps s1 st u).2.2.2 = (processUnit maps s2 st u).2.2.2 := by
  cases hu : unitRes u with
  | skip => simp [processUnit, hu]
  | abort => simp [processUnit, hu]
  | trays ts =>
    obtain ⟨h1, h2⟩ := store_indep_trays maps s1 s2 ts st
    simp [processUnit, hu, h1, h2]

theorem store_indep_units (maps : Mappings) (s1 s2 : Store) :
    ∀ (us : List JVal) (st : Tracker),
      (processUnits maps s1 st us).1 = (processUnits maps s2 st us).1
      ∧ (processUnits maps s1 st us).2.1.map dproj
          = (processUnits maps s2 st us).2.1.map dproj
      ∧ (processUnits maps s1 st us).2.2.2 = (processUnits maps s2 st us).2.2.2 := by
  intro us
  induction us with
  | nil => intro st; simp [processUnits]
  | cons u us ih =>
    intro st
    obtain ⟨h1, h2, h3⟩ := store_indep_unit maps s1 s2 st u
    cases hab : (processUnit maps s1 st u).2.2.2 with
    | true =>
      have hab2 : (processUnit maps s2 st u).2.2.2 = true := h3.symm.trans hab
      simp only [processUnits, hab, hab2, if_true]
      exact ⟨h1, h2, trivial⟩
    | false =>
      have hab2 : (processUnit maps s2 st u).2.2.2 = false := h3.symm.trans hab
      simp only [processUnits, hab, hab2, Bool.false_eq_true, if_false]
      refine ⟨?_, ?_, ?_⟩
      · rw [h1]
        exact (ih (processUnit maps s2 st u).1).1
      · simp only [List.map_append]
        rw [h1, h2, (ih (processUnit maps s2 st u).1).2.1]
      · rw [h1]
        exact (ih (processUnit maps s2 st u).1).2.2

theorem store_indep_ams (maps : Mappings) (s1 s2 : Store) (st : Tracker) (amsData : JVal) :
    (processAmsData maps s1 st amsData).1 = (processAmsData maps s2 st amsData).1
    ∧ (processAmsData maps s1 st amsData).2.1.map dproj
        = (processAmsData maps s2 st amsData).2.1.map dproj
    ∧ (processAmsData maps s1 st amsData).2.2.2 = (processAmsData maps s2 st amsData).2.2.2 := by
  by_cases ht : truthy amsData
  · cases hi : pyIter amsData with
    | none => simp [processAmsData, ht, hi]
    | some us =>
      obtain ⟨h1, h2, h3⟩ := store_indep_units maps s1 s2 us st
      simp [processAmsData, ht, hi, h1, h2, h3]
  · simp [processAmsData, ht]

theorem store_indep_message (maps : Mappings) (s1 s2 : Store) (st : Tracker) (m : Raw) :
    (processMessage maps s1 st m).1 = (processMessage maps s2 st m).1
    ∧ (processMessage maps s1 st m).2.1.map dproj
        = (processMessage maps s2 st m).2.1.map dproj := by
  cases m with
  | malformed => simp [processMessage]
  | wellFormed v =>
    cases hin : pyInStr "print" v with
    | none => simp [processMessage, hin]
    | some b =>
      cases b with
      | false => simp [processMessage, hin]
      | true =>
        cases hsub : pySub v "print" with
        | none => simp [processMessage, hin, hsub]
        | some printData =>
          cases hg1 : pyGetD printData "ams" (.jobj []) with
          | none => simp [processMessage, hin, hsub, hg1]
          | some amsField =>
            cases hg2 : pyGetD amsField "ams" (.jarr []) with
            | none => simp [processMessage, hin, hsub, hg1, hg2]
            | some amsData =>
              by_cases ht : truthy amsData
              · obtain ⟨h1, h2, h3⟩ := store_indep_ams maps s1 s2 st amsData
                simp [processMessage, hin, hsub, hg1, hg2, ht, h1, h2]
              · simp [processMessage, hin, hsub, hg1, hg2, ht]

theorem store_indep_sess (env : Env) (s1 s2 : Store) :
    ∀ (msgs : List Raw) (k : Nat) (st : Tracker),
      (runSess env s1 msgs k st).next = (runSess env s2 msgs k st).next
      ∧ (runSess env s1 msgs k st).tracker = (runSess env s2 msgs k st).tracker
      ∧ (runSess env s1 msgs k st).procs = (runSess env s2 msgs k st).procs
      ∧ (runSess env s1 msgs k st).broke = (runSess env s2 msgs k st).broke
      ∧ (runSess env s1 msgs k st).disps.map dproj
          = (runSess env s2 msgs k st).disps.map dproj := by
  intro msgs
  induction msgs with
  | nil => intro k st; simp [runSess]
  | cons m ms ih =>
    intro k st
    by_cases hc : checkRun env k
    · obtain ⟨h1, h2⟩ := store_indep_message env.maps s1 s2 st m
      simp only [runSess, hc, if_true]
      refine ⟨?_, ?_, ?_, ?_, ?_⟩
      · rw [h1]
        exact (ih (k + 1) (processMessage env.maps s2 st m).1).1
      · rw [h1]
        exact (ih (k + 1) (processMessage env.maps s2 st m).1).2.1
      · rw [h1, (ih (k + 1) (processMessage env.maps s2 st m).1).2.2.1]
      · rw [h1]
        exact (ih (k + 1) (processMessage env.maps s2 st m).1).2.2.2.1
      · simp only [List.map_append]
        rw [h1, h2, (ih (k + 1) (processMessage env.maps s2 st m).1).2.2.2.2]
    · simp [runSess, hc]

theorem store_indep_run (env : Env) (s1 s2 : Store) :
    ∀ (atts : List Att) (k d : Nat) (st : Tracker),
      (runLoop env s1 atts k d st).tracker = (runLoop env s2 atts k d st).tracker
      ∧ (runLoop env s1 atts k d st).waits = (runLoop env s2 atts k d st).waits
      ∧ (runLoop env s1 atts k d st).conns = (runLoop env s2 atts k d st).conns
      ∧ (runLoop env s1 atts k d st).procs = (runLoop env s2 atts k d st).procs
      ∧ (runLoop env s1 atts k d st).disps.map dproj
          = (runLoop env s2 atts k d st).disps.map dproj := by
  intro atts
  induction atts with
  | nil =>
    intro k d st
    by_cases hc : checkRun env k <;> simp [runLoop, hc]
  | cons a rest ih =>
    intro k d st
    by_cases hc : checkRun env k
    · cases a with
      | connFail =>
        by_cases hc2 : checkRun env (k + 1) <;>
          simp only [runLoop, hc, hc2, if_true, if_false, Bool.false_eq_true]
        · obtain ⟨g1, g2, g3, g4, g5⟩ := ih (k + 2) (min (d * 2) 300) st
          exact ⟨g1, by rw [g2], by rw [g3], g4, g5⟩
        · simp
      | subFail =>
        by_cases hc2 : checkRun env (k + 1) <;>
          simp only [runLoop, hc, hc2, if_true, if_false, Bool.false_eq_true]
        · obtain ⟨g1, g2, g3, g4, g5⟩ := ih (k + 2) (min (5 * 2) 300) st
          exact ⟨g1, by rw [g2], by rw [g3], g4, g5⟩
        · simp
      | sess msgs endsErr =>
        obtain ⟨e1, e2, e3, e4, e5⟩ := store_indep_sess env s1 s2 msgs (k + 1) st
        cases hbr : (runSess env s1 msgs (k + 1) st).broke with
        | true =>
          have hbr2 : (runSess env s2 msgs (k + 1) st).broke = true := e4.symm.trans hbr
          simp only [runLoop, hbr, hbr2, hc, if_true]
          obtain ⟨g1, g2, g3, g4, g5⟩ :=
            ih (runSess env s2 msgs (k + 1) st).next 5 (runSess env s2 msgs (k + 1) st).tracker
          simp only [e1, e2, e3, e5, List.map_append]
          exact ⟨g1, by rw [g2], by rw [g3], by rw [g4], by rw [g5]⟩
        | false =>
          have hbr2 : (runSess env s2 msgs (k + 1) st).broke = false := e4.symm.trans hbr
          cases endsErr with
          | true =>
            by_cases hc2 : checkRun env (runSess env s1 msgs (k + 1) st).next
            · have hc2b : checkRun env (runSess env s2 msgs (k + 1) st).next = true := by
                rw [← e1]; exact hc2
              simp only [runLoop, hc, hbr, hbr2, hc2, hc2b, if_true, if_false,
                Bool.false_eq_true]
              obtain ⟨g1, g2, g3, g4, g5⟩ :=
                ih ((runSess env s2 msgs (k + 1) st).next + 1) (min (5 * 2) 300)
                  (runSess env s2 msgs (k + 1) st).tracker
              simp only [e1, e2, e3, e5, List.map_append]
              exact ⟨g1, by rw [g2], by rw [g3], by rw [g4], by rw [g5]⟩
            · have hc2b : checkRun env (runSess env s2 msgs (k + 1) st).next = false := by
                rw [← e1]; simpa using hc2
              simp only [runLoop, hc, hbr, hbr2, hc2, hc2b, if_true, if_false,
                Bool.false_eq_true]
              exact ⟨e2, trivial, trivial, e3, e5⟩
          | false =>
            simp only [runLoop, hc, hbr, hbr2, if_true, if_false, Bool.false_eq_true]
            obtain ⟨g1, g2, g3, g4, g5⟩ :=
              ih (runSess env s2 msgs (k + 1) st).next 5 (runSess env s2 msgs (k + 1) st).tracker
            simp only [e1, e2, e3, e5, List.map_append]
            exact ⟨g1, by rw [g2], by rw [g3], by rw [g4], by rw [g5]⟩
    · cases a <;> simp [runLoop, hc]

/-- C6: a failure of the external store's update for one slot is caught
inside the per-record processing: the tracker evolution, the set of
dispatch attempts (slot, spool, weight) and the messages processed are
identical for every store-outcome oracle, within one message and across
the whole supervisor run; concretely, with the store failing on spool 1,
a two-slot message still attempts both updates (and logs the failure). -/
theorem C6_theorem :
    (∀ (maps : Mappings) (s1 s2 : Store) (st : Tracker) (m : Raw),
        (processMessage maps s1 st m).1 = (processMessage maps s2 st m).1
        ∧ (processMessage maps s1 st m).2.1.map dproj
            = (processMessage maps s2 st m).2.1.map dproj)
    ∧ (∀ (env : Env) (s1 s2 : Store) (atts : List Att) (k d : Nat) (st : Tracker),
        (runLoop env s1 atts k d st).tracker = (runLoop env s2 atts k d st).tracker
        ∧ (runLoop env s1 atts k d st).waits = (runLoop env s2 atts k d st).waits
        ∧ (runLoop env s1 atts k d st).procs = (runLoop env s2 atts k d st).procs
        ∧ (runLoop env s1 atts k d st).disps.map dproj
            = (runLoop env s2 atts k d st).disps.map dproj)
    ∧ ((processMessage [("0", 1), ("1", 2)] (fun i _ => i != 1) []
          (.wellFormed (.jobj [("print", .jobj [("ams", .jobj [("ams", .jarr
            [.jobj [("tray", .jarr
              [.jobj [("id", .jint 0), ("remain", .jint 10), ("tray_weight", .jint 50)],
               .jobj [("id", .jint 1), ("remain", .jint 80), ("tray_weight", .jint 50)]])]])])])]))).2.1.map
            dproj
          = [("0", 1, 5), ("1", 2, 40)]
        ∧ (processMessage [("0", 1), ("1", 2)] (fun i _ => i != 1) []
          (.wellFormed (.jobj [("print", .jobj [("ams", .jobj [("ams", .jarr
            [.jobj [("tray", .jarr
              [.jobj [("id", .jint 0), ("remain", .jint 10), ("tray_weight", .jint 50)],
               .jobj [("id", .jint 1), ("remain", .jint 80), ("tray_weight", .jint 50)]])]])])])]))).2.2
          = [.infoSlot "0" 1 10 5, .excUpdateFailed 1, .infoSlot "1" 2 80 40,
             .infoUpdated 2 40]) := by
  refine ⟨store_indep_message, ?_, rfl, rfl⟩
  intro env s1 s2 atts k d st
  obtain ⟨g1, g2, g3, g4, g5⟩ := store_indep_run env s1 s2 atts k d st
  exact ⟨g1, g2, g4, g5⟩

/-- Witness for `C10_theorem`: instantiation of its quantified parts at
concrete records. -/
theorem C10_theorem_witness :
    trayIdOf [("remain", .jint 50)] = ""
    ∧ processTray [("0", 1)] (fun _ _ => true) []
        (.jobj (("id", .jint 0) :: [("remain", .jint 50), ("tray_weight", .jint 100)]))
      = processTray [("0", 1)] (fun _ _ => true) []
        (.jobj (("id", .jstr "0") :: [("remain", .jint 50), ("tray_weight", .jint 100)])) :=
  ⟨C10_theorem.2.1 [("remain", .jint 50)] rfl,
    C10_theorem.1 [("0", 1)] (fun _ _ => true) [] [("remain", .jint 50), ("tray_weight", .jint 100)]⟩

/-- C2 (corrected), counterexample: for the mapped slot `"0"` and a tray
record whose `remain` field is the non-numeric string `"abc"`, the claim
asserts that the tracker baseline is still advanced; in fact the code
`continue`s at line 146 before the baseline write at line 155, so the
tracker stays empty (no entry for `"0"` is created), and no dispatch
occurs. -/
theorem C2_counterexample :
    (processTray [("0", 1)] (fun _ _ => true) []
        (.jobj [("id", .jint 0), ("remain", .jstr "abc"), ("tray_weight", .jint 1000)])).1
      = ([] : Tracker)
    ∧ (processTray [("0", 1)] (fun _ _ => true) []
        (.jobj [("id", .jint 0), ("remain", .jstr "abc"), ("tray_weight", .jint 1000)])).2.1
      = [] := by
  constructor <;> rfl

/-- C2 (amended): for every mapped slot record whose remaining-percentage
field is present but not coercible to a number, the value is logged at
warning level and no dispatch occurs for that record, but the slot's
tracker baseline is NOT advanced — the record is skipped before the
change filter, so (unlike an unusable total-weight) it does not consume
the change-detection opportunity. -/
theorem C2_theorem (maps : Mappings) (store : Store) (st : Tracker)
    (fields : List (String × JVal)) (rv : JVal) (spool : Int)
    (hm : mLookup maps (trayIdOf fields) = some spool)
    (hr : fieldOrNone fields "remain" = some rv)
    (hf : pyFloat rv = none) :
    processTray maps store st (.jobj fields) =
      (st, [], [.warnBadRemain (trayIdOf fields) rv]) := by
  simp [processTray, hm, hr, hf]

/-- Witness for `C2_theorem` at a concrete input. -/
theorem C2_theorem_witness :
    processTray [("0", 1)] (fun _ _ => true) [("0", 40)]
        (.jobj [("id", .jint 0), ("remain", .jstr "abc"), ("tray_weight", .jint 1000)])
      = ([("0", 40)], [], [.warnBadRemain "0" (.jstr "abc")]) := by
  have h := C2_theorem [("0", 1)] (fun _ _ => true) [("0", 40)]
    [("id", .jint 0), ("remain", .jstr "abc"), ("tray_weight", .jint 1000)]
    (.jstr "abc") 1 rfl rfl rfl
  simpa using h

end Bambu
